import Mathlib

/-!
# MasterSales: static/js/app.js

A shallow embedding of the client-side glue file `static/js/app.js`:

* the Alpine store `notifications` (`items`, `add`, `remove`), first as pure
  functions on the `items` array, then as a store state with the timers created
  by `setTimeout` and the clock that counts their delay;
* the Kanban wiring (`initKanban`, its `onEnd` drop callback, the
  `DOMContentLoaded` handler) over a small DOM model;
* the two htmx hooks.

JavaScript exceptions are modelled by `Except JsError`; calls into the
libraries (`htmx.ajax`, `console.error`, `new Sortable`) are recorded as the
values a routine returns.
-/

namespace MasterSales

/-! ## The notification store (app.js, lines 50-60) -/

/-- One entry of `items`: the object literal `{ id, message, type }` of line 54.
`id` is a value of `Date.now()`, an integer number of milliseconds. -/
structure Notification where
  id : Int
  message : String
  type : String
  deriving DecidableEq, Repr

/-- A timer created by `setTimeout(() => this.remove(id), 5000)`: the delay it
was given and the `id` captured by its callback. -/
structure Scheduled where
  delay : Nat
  id : Int
  deriving DecidableEq, Repr

/-- The body of `add(message, type = 'info')` (lines 52-56) on the array
`items`, given the value `clock` that `Date.now()` returns to this call.
An omitted `type` argument is `none`; the default parameter makes it `'info'`.
Returns the array after `push` and the timer handed to `setTimeout`. -/
def add (clock : Int) (message : String) (type : Option String)
    (items : List Notification) : List Notification × Scheduled :=
  let type := type.getD "info"
  let id := clock
  (items ++ [{ id := id, message := message, type := type }], { delay := 5000, id := id })

/-- The body of `remove(id)` (lines 57-59):
`this.items = this.items.filter(item => item.id !== id)`. -/
def remove (id : Int) (items : List Notification) : List Notification :=
  items.filter (fun item => item.id != id)

/-- One call of `add` as it is received: the clock value the call reads, the
message, and the optional type argument. -/
structure AddCall where
  clock : Int
  message : String
  type : Option String
  deriving DecidableEq, Repr

/-- A sequence of `add` calls run one after the other on `items`, with no
removal in between (the timers they create are still pending). -/
def addAll (items : List Notification) (calls : List AddCall) : List Notification :=
  calls.foldl (fun acc c => (add c.clock c.message c.type acc).1) items

/-- The notification an `add` call is expected to create. -/
def AddCall.created (c : AddCall) : Notification :=
  { id := c.clock, message := c.message, type := c.type.getD "info" }

/-! ## The store, the runtime's timers and the passing of time

Two clocks are involved and the file ties them to nothing.  `Date.now()` is
the system clock: each call of `add` reads one value of it, given with the
call.  The delay of `setTimeout` is counted by the runtime on its own timer
clock, the `time` of the state below, which never runs backwards.  A timer
created with delay `d` at timer-clock value `c` is due at `c + d`.  When the
runtime runs the callback of a pending timer is its own decision: the file
only asks for the delay.  A step therefore lets any pending timer fire, and
the runs on which no callback runs before its timer is due are singled out by
`neverEarly`.  The runtime numbers the timers it creates (the handle
`setTimeout` returns, which `add` drops). -/

/-- A pending timer: the handle the runtime gave it, the timer-clock value at
which it becomes due, and the `id` its callback `() => this.remove(id)` has
captured. -/
structure Timer where
  handle : Nat
  due : Int
  id : Int
  deriving DecidableEq, Repr

/-- The store object together with the runtime's timer clock, the timers still
pending and the handle the next timer will get. -/
structure Store where
  items : List Notification
  time : Int
  timers : List Timer
  next : Nat
  deriving DecidableEq, Repr

/-- The store as registered by `Alpine.store('notifications', { items: [], ... })`
(line 51), at timer-clock value `time`. -/
def init (time : Int) : Store :=
  { items := [], time := time, timers := [], next := 1 }

/-- A call `add(message, type)` on the store, in which `Date.now()` returns
`clock`: the timer given to `setTimeout` becomes pending, due `delay` after the
current value of the timer clock. -/
def Store.add (clock : Int) (message : String) (type : Option String) (s : Store) : Store :=
  let r := MasterSales.add clock message type s.items
  { items := r.1, time := s.time,
    timers := s.timers ++ [{ handle := s.next, due := s.time + r.2.delay, id := r.2.id }],
    next := s.next + 1 }

/-- A call `remove(id)` on the store. -/
def Store.remove (id : Int) (s : Store) : Store :=
  { s with items := MasterSales.remove id s.items }

/-- What can happen to the store: a call of `add` (with the value it reads from
`Date.now()`), an explicit call of `remove`, a pending timer running its
callback, and time passing on the timer clock. -/
inductive Event where
  | add (clock : Int) (message : String) (type : Option String)
  | remove (id : Int)
  | fire (t : Timer)
  | tick (d : Nat)
  deriving DecidableEq, Repr

/-- The id an event removes: the argument of an explicit `remove`, or the id
captured by the timer that fires. -/
def Event.removedId : Event → Option Int
  | .remove id => some id
  | .fire t => some t.id
  | _ => none

/-- Whether the event is an explicit call of `remove`. -/
def Event.isRemove : Event → Bool
  | .remove _ => true
  | _ => false

/-- The value of `Date.now()` an event reads, if it is a call of `add`. -/
def Event.readClock : Event → Option Int
  | .add clock _ _ => some clock
  | _ => none

/-- One step of the store.  A timer can fire only while it is pending; firing
takes it off the pending timers and runs `this.remove(id)`. -/
def step (s : Store) : Event → Option Store
  | .add clock message type => some (s.add clock message type)
  | .remove id => some (s.remove id)
  | .fire t =>
    if t ∈ s.timers then
      some (Store.remove t.id { s with timers := s.timers.erase t })
    else none
  | .tick d => some { s with time := s.time + d }

/-- A run: the events are taken in order; `none` when one of them cannot happen. -/
def run (s : Store) : List Event → Option Store
  | [] => some s
  | e :: es => (step s e).bind (fun s' => run s' es)

/-- Whether on the run of `es` from `s` no timer fires before it is due on the
timer clock, that is, the runtime lets every callback wait for its delay. -/
def neverEarly (s : Store) : List Event → Bool
  | [] => true
  | e :: es =>
    (match e with
      | .fire t => decide (t.due ≤ s.time)
      | _ => true) &&
    (match step s e with
      | some s' => neverEarly s' es
      | none => true)

/-- Every pending timer has a handle below the next one to be given. -/
def HandlesBelow (s : Store) : Prop :=
  ∀ t ∈ s.timers, t.handle < s.next

/-! ## The DOM, the Kanban wiring and the htmx hooks (app.js, lines 4-46) -/

/-- A JavaScript exception. -/
inductive JsError where
  | typeError (msg : String)
  | thrown (msg : String)
  deriving DecidableEq, Repr

/-- A DOM element: its class list, its `dataset` (keyed by property name, so
`contactId` stands for the attribute `data-contact-id` and `status` for
`data-status`) and its child elements in document order. -/
inductive Element where
  | mk (classes : List String) (dataset : List (String × String)) (children : List Element)

/-- The class list of an element. -/
def Element.classes : Element → List String
  | .mk c _ _ => c

/-- The children of an element. -/
def Element.children : Element → List Element
  | .mk _ _ ch => ch

/-- A read `el.dataset.key`: `none` is JavaScript's `undefined`. -/
def Element.data (key : String) : Element → Option String
  | .mk _ d _ => d.lookup key

/-- Whether the element matches the class selector `.cls`. -/
def Element.hasClass (cls : String) (e : Element) : Bool :=
  decide (cls ∈ e.classes)

mutual
/-- The element followed by all its descendants, in document order. -/
def Element.subtree : Element → List Element
  | .mk c d ch => .mk c d ch :: Element.subtrees ch
/-- The subtrees of a list of siblings, in document order. -/
def Element.subtrees : List Element → List Element
  | [] => []
  | e :: es => e.subtree ++ Element.subtrees es
end

/-- The document, given by its root element. -/
structure Document where
  root : Element

/-- A call `document.querySelectorAll('.cls')`: every element of the document
with the class, in document order. -/
def Document.querySelectorAll (cls : String) (doc : Document) : List Element :=
  doc.root.subtree.filter (Element.hasClass cls)

/-- A call `document.querySelector('.cls')`: the first such element, if any. -/
def Document.querySelector (cls : String) (doc : Document) : Option Element :=
  doc.root.subtree.find? (Element.hasClass cls)

/-- A call `el.querySelector('.cls')`: the first descendant of `el` with the
class, `none` for `null`. -/
def Element.querySelector (cls : String) (e : Element) : Option Element :=
  (Element.subtrees e.children).find? (Element.hasClass cls)

/-- An element seen from inside the document: the element and its ancestors,
nearest first. -/
structure Located where
  self : Element
  ancestors : List Element

/-- A call `el.closest('.cls')`: the element itself or its nearest ancestor with
the class, `none` for `null`. -/
def Located.closest (cls : String) (l : Located) : Option Element :=
  (l.self :: l.ancestors).find? (Element.hasClass cls)

/-- The part of Sortable's end-of-drag event that `onEnd` reads: the moved
element `evt.item` and the destination container `evt.to` (the field `dest`). -/
structure DropEvent where
  item : Element
  dest : Located

/-- A call `htmx.ajax(verb, path, { values, target, swap })`.  A value that is
`undefined` is `none`. -/
structure AjaxCall where
  verb : String
  path : String
  values : List (String × Option String)
  target : String
  swap : String
  deriving DecidableEq, Repr

/-- The `onEnd` callback (lines 22-34), returning the `htmx.ajax` calls it makes.
Reading `.dataset` of the `null` that `closest` returns raises a `TypeError`;
a missing `dataset` entry reads as `undefined` and raises nothing. -/
def onEnd (evt : DropEvent) : Except JsError (List AjaxCall) :=
  let contactId := evt.item.data "contactId"
  match evt.dest.closest "kanban-column" with
  | none => .error (.typeError "Cannot read properties of null (reading dataset)")
  | some column =>
    let newStatus := column.data "status"
    .ok [{ verb := "POST", path := "/pipeline/move",
           values := [("contact_id", contactId), ("new_status", newStatus)],
           target := "#pipeline-stats", swap := "innerHTML" }]

/-- The options object given to `new Sortable` (lines 18-34). -/
structure SortableOptions where
  group : String
  animation : Nat
  ghostClass : String
  dragClass : String
  onEnd : DropEvent → Except JsError (List AjaxCall)

/-- The options `initKanban` passes. -/
def kanbanOptions : SortableOptions :=
  { group := "pipeline", animation := 150, ghostClass := "dragging",
    dragClass := "kanban-card", onEnd := onEnd }

/-- The drag-and-drop library when it is loaded.  Its constructor is not part of
this file: `accepts el` says whether `new Sortable(el, options)` returns (and
registers `el`) or throws. -/
structure SortableLib where
  accepts : Option Element → Bool

/-- A sortable container registered by `new Sortable(el, options)`. -/
structure Registration where
  el : Option Element
  options : SortableOptions

/-- The body of the `forEach` callback of `initKanban` (lines 16-36) for one
column; `none` for the library is `typeof Sortable === 'undefined'`. -/
def bindColumn (sortable : Option SortableLib) (regs : List Registration) (column : Element) :
    Except JsError (List Registration) :=
  match sortable with
  | none => .ok regs
  | some lib =>
    let el := column.querySelector "kanban-cards"
    if lib.accepts el then .ok (regs ++ [{ el := el, options := kanbanOptions }])
    else .error (.thrown "Sortable: el must be an HTMLElement")

/-- The `forEach` loop: the callback runs on each column in turn, and an
exception it raises ends the loop. -/
def bindColumns (sortable : Option SortableLib) (regs : List Registration) :
    List Element → Except JsError (List Registration)
  | [] => .ok regs
  | column :: rest =>
    match bindColumn sortable regs column with
    | .error e => .error e
    | .ok regs' => bindColumns sortable regs' rest

/-- The routine `initKanban` (lines 14-38), returning the sortable containers it
registers. -/
def initKanban (sortable : Option SortableLib) (doc : Document) :
    Except JsError (List Registration) :=
  bindColumns sortable [] (doc.querySelectorAll "kanban-column")

/-- The `DOMContentLoaded` handler (lines 41-46). -/
def onDOMContentLoaded (sortable : Option SortableLib) (doc : Document) :
    Except JsError (List Registration) :=
  if (doc.querySelector "kanban-column").isSome then initKanban sortable doc else .ok []

/-- The `htmx:configRequest` handler (lines 4-6): its body is a comment. -/
def onConfigRequest (_detail : String) : Except JsError Unit :=
  .ok ()

/-- The `htmx:responseError` handler (lines 9-11), returning the arguments of its
`console.error` call. -/
def onResponseError (detail : String) : Except JsError (List (String × String)) :=
  .ok [("HTMX request failed:", detail)]

/-! ## Concrete inputs used below -/

/-- A card carrying `data-contact-id="42"`. -/
def card42 : Element :=
  .mk ["kanban-card"] [("contactId", "42")] []

/-- The card list of the column with `data-status="won"`, seen with its column
and the board above it. -/
def wonCards : Located :=
  { self := .mk ["kanban-cards"] [] [card42],
    ancestors := [.mk ["kanban-column"] [("status", "won")] [.mk ["kanban-cards"] [] [card42]],
                  .mk ["kanban-board"] [] []] }

/-- Dropping card 42 into the column `won`. -/
def dropIntoWon : DropEvent :=
  { item := card42, dest := wonCards }

/-- A drop whose destination container has no `.kanban-column` ancestor. -/
def dropOutsideColumn : DropEvent :=
  { item := card42, dest := { self := .mk ["kanban-cards"] [] [card42], ancestors := [.mk ["page"] [] []] } }

/-- A board whose columns all have a `.kanban-cards` child. -/
def fullBoardDoc : Document :=
  { root := .mk ["kanban-board"] []
      [.mk ["kanban-column"] [("status", "new")] [.mk ["kanban-cards"] [] [card42]],
       .mk ["kanban-column"] [("status", "won")] [.mk ["kanban-cards"] [] []]] }

/-- A library whose constructor throws unless it is given an element. -/
def strictSortable : SortableLib :=
  { accepts := fun el => el.isSome }

/-! ## Theorems -/

/-- C1: `remove id` keeps exactly the notifications whose id differs from `id`,
with their multiplicity and in their original relative order: the result is a
sublist of the input, a notification belongs to it iff it belongs to the input
and its id differs, every kept notification occurs as often as before, and any
sublist of the input that avoids `id` is already a sublist of the result.  When
no notification has that id the list is unchanged. -/
theorem remove_spec (id : Int) (items : List Notification) :
    (remove id items).Sublist items ∧
    (∀ n, n ∈ remove id items ↔ n ∈ items ∧ n.id ≠ id) ∧
    (∀ n, n.id ≠ id → (remove id items).count n = items.count n) ∧
    (∀ r : List Notification, r.Sublist items → (∀ n ∈ r, n.id ≠ id) →
      r.Sublist (remove id items)) ∧
    ((∀ n ∈ items, n.id ≠ id) → remove id items = items) := by
  refine ⟨List.filter_sublist items, ?_, ?_, ?_, ?_⟩
  · intro n
    simp [remove, List.mem_filter]
  · intro n hn
    unfold remove
    rw [List.count_filter]
    simpa using hn
  · intro r hr hall
    have h : r.filter (fun item => item.id != id) = r := by
      rw [List.filter_eq_self]
      intro n hn
      simpa using hall n hn
    rw [← h]
    exact hr.filter _
  · intro hall
    unfold remove
    rw [List.filter_eq_self]
    intro n hn
    simpa using hall n hn

/-- C2: a sequence of `add` calls with no removal in between turns `items` into
`items` followed by one notification per call, in call order, each made of the
clock value read by the call, its message and its type (`'info'` when the
argument is omitted). -/
theorem addAll_eq_append (items : List Notification) (calls : List AddCall) :
    addAll items calls = items ++ calls.map AddCall.created := by
  induction calls generalizing items with
  | nil => simp [addAll]
  | cons c cs ih =>
    have h : addAll items (c :: cs) = addAll (add c.clock c.message c.type items).1 cs := rfl
    rw [h, ih]
    simp [add, AddCall.created]

/-- C3: `remove` is idempotent: removing the same id twice in a row gives the
list that removing it once gives. -/
theorem remove_idempotent (id : Int) (items : List Notification) :
    remove id (remove id items) = remove id items := by
  unfold remove
  rw [List.filter_filter]
  congr 1
  funext item
  simp

/-! ### Runs of the store -/

/-- A run over two event lists in a row is the run over the first followed by the
run over the second. -/
theorem run_append (s : Store) (es fs : List Event) :
    run s (es ++ fs) = (run s es).bind (fun s' => run s' fs) := by
  induction es generalizing s with
  | nil => rfl
  | cons e es ih =>
    simp only [List.cons_append, run]
    cases step s e with
    | none => rfl
    | some s1 => simpa using ih s1

/-- A run that starts with `e` is a step by `e` followed by a run. -/
theorem run_cons_some (s s' : Store) (e : Event) (es : List Event)
    (h : run s (e :: es) = some s') :
    ∃ s1, step s e = some s1 ∧ run s1 es = some s' := by
  simp only [run] at h
  cases h1 : step s e with
  | none => rw [h1] at h; cases h
  | some s1 =>
    rw [h1] at h
    exact ⟨s1, rfl, h⟩

/-- What a step does to the list, the timer clock and the pending timers. -/
theorem step_cases (s s' : Store) (e : Event) (h : step s e = some s') :
    (∃ clock message type, e = .add clock message type ∧ s' = s.add clock message type) ∨
    (∃ id, e = .remove id ∧ s' = s.remove id) ∨
    (∃ tm, e = .fire tm ∧ tm ∈ s.timers ∧
      s' = Store.remove tm.id { s with timers := s.timers.erase tm }) ∨
    (∃ d, e = .tick d ∧ s' = { s with time := s.time + d }) := by
  cases e with
  | add clock message type =>
    simp only [step, Option.some.injEq] at h
    exact Or.inl ⟨clock, message, type, rfl, h.symm⟩
  | remove id =>
    simp only [step, Option.some.injEq] at h
    exact Or.inr (Or.inl ⟨id, rfl, h.symm⟩)
  | fire tm =>
    simp only [step] at h
    split at h
    · rename_i hen
      simp only [Option.some.injEq] at h
      exact Or.inr (Or.inr (Or.inl ⟨tm, rfl, hen, h.symm⟩))
    · cases h
  | tick d =>
    simp only [step, Option.some.injEq] at h
    exact Or.inr (Or.inr (Or.inr ⟨d, rfl, h.symm⟩))

/-- The timer clock never runs backwards in a step. -/
theorem time_le_step (s s' : Store) (e : Event) (h : step s e = some s') :
    s.time ≤ s'.time := by
  rcases step_cases s s' e h with ⟨_, _, _, _, rfl⟩ | ⟨_, _, rfl⟩ | ⟨_, _, _, rfl⟩ | ⟨d, _, rfl⟩
  · exact le_refl _
  · exact le_refl _
  · exact le_refl _
  · show s.time ≤ s.time + (d : Int)
    omega

/-- The timer clock never runs backwards along a run. -/
theorem time_le_run (es : List Event) (s s' : Store) (h : run s es = some s') :
    s.time ≤ s'.time := by
  induction es generalizing s with
  | nil =>
    simp only [run, Option.some.injEq] at h
    subst h
    exact le_refl _
  | cons e es ih =>
    obtain ⟨s1, h1, h2⟩ := run_cons_some s s' e es h
    exact le_trans (time_le_step s s1 e h1) (ih s1 h2)

/-- The empty store has no pending timer. -/
theorem handlesBelow_init (time : Int) : HandlesBelow (init time) := by
  intro t ht
  simp [init] at ht

/-- A step keeps the handles of the pending timers below the next handle. -/
theorem handlesBelow_step (s s' : Store) (e : Event) (h : HandlesBelow s)
    (hs : step s e = some s') : HandlesBelow s' := by
  rcases step_cases s s' e hs with
    ⟨clock, message, type, _, rfl⟩ | ⟨_, _, rfl⟩ | ⟨tm, _, _, rfl⟩ | ⟨d, _, rfl⟩
  · intro t ht
    simp only [Store.add, add, List.mem_append, List.mem_singleton] at ht
    show t.handle < s.next + 1
    rcases ht with ht | rfl
    · exact Nat.lt_succ_of_lt (h t ht)
    · exact Nat.lt_succ_self _
  · exact h
  · intro t ht
    exact h t (List.mem_of_mem_erase ht)
  · exact h

/-- A run keeps the handles of the pending timers below the next handle. -/
theorem handlesBelow_run (es : List Event) (s s' : Store) (h : HandlesBelow s)
    (hs : run s es = some s') : HandlesBelow s' := by
  induction es generalizing s with
  | nil =>
    simp only [run, Option.some.injEq] at hs
    subst hs
    exact h
  | cons e es ih =>
    obtain ⟨s1, h1, h2⟩ := run_cons_some s s' e es hs
    exact ih s1 (handlesBelow_step s s1 e h h1) h2

/-- The rest of a run on which no timer fires early is such a run too, and a
timer that fires first in it is due. -/
theorem neverEarly_cons (s s1 : Store) (e : Event) (es : List Event)
    (h1 : step s e = some s1) (hp : neverEarly s (e :: es) = true) :
    neverEarly s1 es = true ∧ ∀ tm, e = .fire tm → tm.due ≤ s.time := by
  simp only [neverEarly, h1, Bool.and_eq_true] at hp
  refine ⟨hp.2, ?_⟩
  intro tm he
  subst he
  simpa using hp.1

/-- On a run on which no timer fires early, a timer that fires was due by the
end of the run. -/
theorem due_le_of_fire_mem (tm : Timer) (es : List Event) (s s' : Store)
    (hs : run s es = some s') (hp : neverEarly s es = true)
    (hf : Event.fire tm ∈ es) : tm.due ≤ s'.time := by
  induction es generalizing s with
  | nil => cases hf
  | cons e es ih =>
    obtain ⟨s1, h1, h2⟩ := run_cons_some s s' e es hs
    obtain ⟨hp1, hfirst⟩ := neverEarly_cons s s1 e es h1 hp
    rcases List.mem_cons.mp hf with hfe | hfe
    · exact le_trans (hfirst tm hfe.symm)
        (le_trans (time_le_step s s1 _ h1) (time_le_run es s1 s' h2))
    · exact ih s1 h2 hp1 hfe

/-- A listed notification stays listed along a run with no explicit `remove` in
which no timer carrying its id fires. -/
theorem mem_of_not_fired (n : Notification) (es : List Event) (s s' : Store)
    (hn : n ∈ s.items) (hs : run s es = some s')
    (hexp : ∀ e ∈ es, e.isRemove = false)
    (hf : ∀ tm, Event.fire tm ∈ es → tm.id ≠ n.id) : n ∈ s'.items := by
  induction es generalizing s with
  | nil =>
    simp only [run, Option.some.injEq] at hs
    subst hs
    exact hn
  | cons e es ih =>
    obtain ⟨s1, h1, h2⟩ := run_cons_some s s' e es hs
    refine ih s1 ?_ h2 (fun e' he' => hexp e' (List.mem_cons_of_mem _ he'))
      (fun tm htm => hf tm (List.mem_cons_of_mem _ htm))
    rcases step_cases s s1 e h1 with
      ⟨clock, message, type, _, rfl⟩ | ⟨id, he, _⟩ | ⟨tm, he, _, rfl⟩ | ⟨d, _, rfl⟩
    · simp only [Store.add, add, List.mem_append, List.mem_singleton]
      exact Or.inl hn
    · have := hexp e (List.mem_cons_self _ _)
      rw [he] at this
      simp [Event.isRemove] at this
    · have hne : tm.id ≠ n.id := hf tm (by rw [he]; exact List.mem_cons_self _ _)
      simp only [Store.remove, remove, List.mem_filter]
      exact ⟨hn, by simpa using fun heq => hne heq.symm⟩
    · exact hn

/-- On a run with no explicit `remove` on which no timer fires early, a listed
notification is still listed at the end whenever the timer clock is below a
bound `T` before which no timer carrying its id, pending or still to be
created, is due. -/
theorem mem_of_before_due (n : Notification) (T : Int) (es : List Event) (s s' : Store)
    (hdue : ∀ tm ∈ s.timers, tm.id = n.id → T ≤ tm.due) (hnew : T ≤ s.time + 5000)
    (hn : n ∈ s.items) (hs : run s es = some s') (hp : neverEarly s es = true)
    (hexp : ∀ e ∈ es, e.isRemove = false) (hlt : s'.time < T) : n ∈ s'.items := by
  induction es generalizing s with
  | nil =>
    simp only [run, Option.some.injEq] at hs
    subst hs
    exact hn
  | cons e es ih =>
    obtain ⟨s1, h1, h2⟩ := run_cons_some s s' e es hs
    obtain ⟨hp1, hfirst⟩ := neverEarly_cons s s1 e es h1 hp
    have hmono1 := time_le_step s s1 e h1
    have hmono2 := time_le_run es s1 s' h2
    have hexp1 : ∀ e' ∈ es, e'.isRemove = false :=
      fun e' he' => hexp e' (List.mem_cons_of_mem _ he')
    rcases step_cases s s1 e h1 with
      ⟨clock, message, type, _, rfl⟩ | ⟨id, he, _⟩ | ⟨tm, he, hmem, rfl⟩ | ⟨d, _, rfl⟩
    · refine ih (s.add clock message type) ?_ hnew ?_ h2 hp1 hexp1
      · intro tm htm hid
        simp only [Store.add, add, List.mem_append, List.mem_singleton] at htm
        rcases htm with htm | rfl
        · exact hdue tm htm hid
        · show T ≤ s.time + ((5000 : Nat) : Int)
          simpa using hnew
      · simp only [Store.add, add, List.mem_append, List.mem_singleton]
        exact Or.inl hn
    · have := hexp e (List.mem_cons_self _ _)
      rw [he] at this
      simp [Event.isRemove] at this
    · have hne : tm.id ≠ n.id := by
        intro heq
        have h1' := hdue tm hmem heq
        have h2' : s.time ≤ s'.time := hmono2
        have h3' := hfirst tm he
        omega
      refine ih (Store.remove tm.id { s with timers := s.timers.erase tm }) ?_ hnew ?_ h2 hp1 hexp1
      · intro tm' htm' hid
        exact hdue tm' (List.mem_of_mem_erase htm') hid
      · simp only [Store.remove, remove, List.mem_filter]
        exact ⟨hn, by simpa using fun heq => hne heq.symm⟩
    · refine ih { s with time := s.time + d } hdue ?_ hn h2 hp1 hexp1
      show T ≤ s.time + (d : Int) + 5000
      omega

/-- No notification with id `c` is listed at the end of a run that starts without
one and in which no `add` reads `c` from `Date.now()`. -/
theorem no_id_of_not_read (c : Int) (es : List Event) (s s' : Store)
    (hnone : ∀ n ∈ s.items, n.id ≠ c) (hs : run s es = some s')
    (hread : ∀ e ∈ es, e.readClock ≠ some c) : ∀ n ∈ s'.items, n.id ≠ c := by
  induction es generalizing s with
  | nil =>
    simp only [run, Option.some.injEq] at hs
    subst hs
    exact hnone
  | cons e es ih =>
    obtain ⟨s1, h1, h2⟩ := run_cons_some s s' e es hs
    refine ih s1 ?_ h2 (fun e' he' => hread e' (List.mem_cons_of_mem _ he'))
    rcases step_cases s s1 e h1 with
      ⟨clock, message, type, he, rfl⟩ | ⟨id, _, rfl⟩ | ⟨tm, _, _, rfl⟩ | ⟨d, _, rfl⟩
    · intro n hn
      simp only [Store.add, add, List.mem_append, List.mem_singleton] at hn
      rcases hn with hn | rfl
      · exact hnone n hn
      · have := hread e (List.mem_cons_self _ _)
        rw [he] at this
        simpa [Event.readClock] using this
    · exact fun n hn => hnone n (List.mem_of_mem_filter hn)
    · exact fun n hn => hnone n (List.mem_of_mem_filter hn)
    · exact hnone

/-- Right after a timer has fired no notification with the id it carries is
listed. -/
theorem no_id_of_fire (tm : Timer) (s s' : Store) (hs : step s (.fire tm) = some s') :
    ∀ n ∈ s'.items, n.id ≠ tm.id := by
  rcases step_cases s s' _ hs with
    ⟨_, _, _, he, _⟩ | ⟨_, he, _⟩ | ⟨tm', he, _, rfl⟩ | ⟨_, he, _⟩
  · cases he
  · cases he
  · cases he
    intro n hn
    have := (List.mem_filter.mp hn).2
    simpa using this
  · cases he

/-- Time passes and then a pending timer fires. -/
theorem run_tick_fire (s : Store) (d : Nat) (tm : Timer) (hmem : tm ∈ s.timers) :
    run s [.tick d, .fire tm] =
      some (Store.remove tm.id
        { items := s.items, time := s.time + d, timers := s.timers.erase tm, next := s.next }) := by
  simp [run, step, hmem]

/-- Time passes until a pending timer is due, and then it fires: no callback
runs early. -/
theorem neverEarly_tick_fire (s : Store) (d : Nat) (tm : Timer) (hmem : tm ∈ s.timers)
    (hdue : tm.due ≤ s.time + (d : Int)) :
    neverEarly s [.tick d, .fire tm] = true := by
  simp [neverEarly, step, hmem, hdue]

/-- A run over two event lists in a row passes through the state the first
list leads to. -/
theorem run_append_some (s s' : Store) (es fs : List Event)
    (h : run s (es ++ fs) = some s') :
    ∃ sm, run s es = some sm ∧ run sm fs = some s' := by
  rw [run_append] at h
  cases hm : run s es with
  | none => rw [hm] at h; cases h
  | some sm =>
    rw [hm] at h
    exact ⟨sm, rfl, h⟩

/-! ### The lifetime of a notification -/

/-- C4, as stated, fails: one notification added (`Date.now()` reads 0) at
timer-clock value 0, no explicit `remove`, no callback run early, and 6000ms
later the timer is due but has not run yet, so the notification is still listed
at an instant after `t + 5000`. -/
theorem late_timer_still_listed :
    ∃ s, run ((init 0).add 0 "Saved" none) [.tick 6000] = some s ∧
      neverEarly ((init 0).add 0 "Saved" none) [.tick 6000] = true ∧
      (∀ e ∈ [Event.tick 6000], e.isRemove = false) ∧
      (init 0).time + 5000 ≤ s.time ∧
      (⟨0, "Saved", "info"⟩ : Notification) ∈ s.items :=
  ⟨⟨[⟨0, "Saved", "info"⟩], 6000, [⟨1, 5000, 0⟩], 2⟩,
    by decide, by decide, by decide, by decide, by decide⟩

/-- C4, amended: take a store reached from the empty one, a call of `add` that
reads `clock` from `Date.now()`, and any continuation with no explicit `remove`.
The call schedules one new timer, of delay 5000 and with action `remove(clock)`.
The notification is listed as long as no timer carrying its id has fired (its
own, or that of another `add` that read the same clock value).  From the firing
of such a timer on, in particular of its own, no notification with the id is
listed, until an `add` reads the same clock value again.  On a run on which the runtime lets no
callback run before its delay has passed on the timer clock, the own timer
fires only once 5000ms have passed on that clock, and when no timer pending at
the call carries the id the notification is listed at every state in which
less than 5000ms have passed. -/
theorem notification_lifetime (time : Int) (before after : List Event) (clock : Int)
    (message : String) (type : Option String) (s0 s : Store)
    (hbefore : run (init time) before = some s0)
    (hafter : run (s0.add clock message type) after = some s)
    (hexp : ∀ e ∈ after, e.isRemove = false) :
    (MasterSales.add clock message type s0.items).2 = ⟨5000, clock⟩ ∧
    (⟨s0.next, s0.time + 5000, clock⟩ : Timer) ∈ (s0.add clock message type).timers ∧
    (⟨s0.next, s0.time + 5000, clock⟩ : Timer) ∉ s0.timers ∧
    ((∀ tm, Event.fire tm ∈ after → tm.id ≠ clock) →
      ⟨clock, message, type.getD "info"⟩ ∈ s.items) ∧
    (∀ tm a1 a2, tm.id = clock → after = a1 ++ Event.fire tm :: a2 →
      (∀ e ∈ a2, e.readClock ≠ some clock) → ∀ n ∈ s.items, n.id ≠ clock) ∧
    (neverEarly (s0.add clock message type) after = true →
      (Event.fire ⟨s0.next, s0.time + 5000, clock⟩ ∈ after → s0.time + 5000 ≤ s.time) ∧
      ((∀ tm ∈ s0.timers, tm.id ≠ clock) → s.time < s0.time + 5000 →
        ⟨clock, message, type.getD "info"⟩ ∈ s.items)) := by
  have hn : (⟨clock, message, type.getD "info"⟩ : Notification) ∈
      (s0.add clock message type).items := by
    simp [Store.add, add]
  have hown : (⟨s0.next, s0.time + 5000, clock⟩ : Timer) ∈
      (s0.add clock message type).timers := by
    simp [Store.add, add]
  have hbelow : HandlesBelow s0 := handlesBelow_run before _ s0 (handlesBelow_init time) hbefore
  refine ⟨rfl, hown, ?_, ?_, ?_, ?_⟩
  · intro hmem
    exact Nat.lt_irrefl _ (hbelow _ hmem)
  · intro hf
    exact mem_of_not_fired ⟨clock, message, type.getD "info"⟩ after _ s hn hafter hexp hf
  · intro tm a1 a2 htm hsplit hread
    rw [hsplit] at hafter
    obtain ⟨sa, _, h2⟩ := run_append_some _ s a1 _ hafter
    obtain ⟨sb, hfire, hrest⟩ := run_cons_some sa s _ a2 h2
    have hgone := no_id_of_fire tm sa sb hfire
    rw [htm] at hgone
    exact no_id_of_not_read clock a2 sb s hgone hrest hread
  · intro hp
    refine ⟨?_, ?_⟩
    · intro hf
      exact due_le_of_fire_mem ⟨s0.next, s0.time + 5000, clock⟩ after _ s hafter hp hf
    · intro hfresh hlt
      refine mem_of_before_due ⟨clock, message, type.getD "info"⟩ (s0.time + 5000) after
        (s0.add clock message type) s ?_ (le_refl _) hn hafter hp hexp hlt
      intro tm htm hid
      simp only [Store.add, add, List.mem_append, List.mem_singleton] at htm
      rcases htm with htm | rfl
      · exact absurd hid (hfresh tm htm)
      · show s0.time + 5000 ≤ s0.time + ((5000 : Nat) : Int)
        simp

/-- Witness for the amended C4: an `add` reading 0 on the empty store, then the
timer clock reaches 5000 and the timer fires. -/
theorem notification_lifetime_witness :
    run (init 0) [] = some (init 0) ∧
    run ((init 0).add 0 "Saved" none) [.tick 5000, .fire ⟨1, 5000, 0⟩] =
      some ⟨[], 5000, [], 2⟩ ∧
    (∀ e ∈ [Event.tick 5000, Event.fire ⟨1, 5000, 0⟩], e.isRemove = false) ∧
    neverEarly ((init 0).add 0 "Saved" none) [.tick 5000, .fire ⟨1, 5000, 0⟩] = true ∧
    (∀ tm a1 a2, tm.id = 0 → [Event.tick 5000, Event.fire ⟨1, 5000, 0⟩] =
        a1 ++ Event.fire tm :: a2 →
      (∀ e ∈ a2, e.readClock ≠ some 0) →
      ∀ n ∈ (⟨[], 5000, [], 2⟩ : Store).items, n.id ≠ 0) ∧
    (Event.fire ⟨(init 0).next, (init 0).time + 5000, 0⟩ ∈
        [Event.tick 5000, Event.fire ⟨1, 5000, 0⟩] →
      (init 0).time + 5000 ≤ (⟨[], 5000, [], 2⟩ : Store).time) :=
  have h := notification_lifetime 0 [] [.tick 5000, .fire ⟨1, 5000, 0⟩] 0 "Saved" none (init 0)
    ⟨[], 5000, [], 2⟩ rfl (by decide) (by decide)
  ⟨rfl, by decide, by decide, by decide, h.2.2.2.2.1, (h.2.2.2.2.2 (by decide)).1⟩

/-- C8: in every state reached from the empty store by `add`, explicit `remove`,
timer-fired `remove` and the passing of time, each listed notification was put
there by an earlier `add` step (it has the clock value read by that step as id,
and its message and type), and no `remove` of its id, explicit or fired by a
timer, has happened since that step. -/
theorem listed_was_added (time : Int) (es : List Event) (s : Store)
    (h : run (init time) es = some s) (n : Notification) (hn : n ∈ s.items) :
    ∃ before after clock message type s0,
      es = before ++ Event.add clock message type :: after ∧
      run (init time) before = some s0 ∧
      n = ⟨clock, message, type.getD "info"⟩ ∧
      ∀ e ∈ after, e.removedId ≠ some n.id := by
  induction es using List.reverseRecOn generalizing s n with
  | nil =>
    simp only [run, Option.some.injEq] at h
    subst h
    simp [init] at hn
  | append_singleton l a ih =>
    obtain ⟨sl, hl, h2⟩ := run_append_some _ s l [a] h
    obtain ⟨s1, hstep, h3⟩ := run_cons_some sl s a [] h2
    simp only [run, Option.some.injEq] at h3
    subst h3
    have extend : n ∈ sl.items → a.removedId ≠ some n.id →
        ∃ before after clock message type s0,
          l ++ [a] = before ++ Event.add clock message type :: after ∧
          run (init time) before = some s0 ∧
          n = ⟨clock, message, type.getD "info"⟩ ∧
          ∀ e ∈ after, e.removedId ≠ some n.id := by
      intro hmem hrem
      obtain ⟨before, after, clock, message, type, s0, hes, hrun, hnq, hafter⟩ :=
        ih sl hl n hmem
      refine ⟨before, after ++ [a], clock, message, type, s0, ?_, hrun, hnq, ?_⟩
      · rw [hes]
        simp
      · intro e he
        rcases List.mem_append.mp he with he | he
        · exact hafter e he
        · rw [List.mem_singleton.mp he]
          exact hrem
    rcases step_cases sl s1 a hstep with
      ⟨clock, message, type, rfl, rfl⟩ | ⟨id, rfl, rfl⟩ | ⟨tm, rfl, _, _, rfl⟩ | ⟨d, rfl, rfl⟩
    · simp only [Store.add, add, List.mem_append, List.mem_singleton] at hn
      rcases hn with hn | hn
      · exact extend hn (by simp [Event.removedId])
      · exact ⟨l, [], clock, message, type, sl, rfl, hl, hn, by simp⟩
    · have hf := List.mem_filter.mp hn
      refine extend hf.1 ?_
      have hne : n.id ≠ id := by simpa using hf.2
      simp only [Event.removedId, ne_eq, Option.some.injEq]
      exact fun heq => hne heq.symm
    · have hf := List.mem_filter.mp hn
      refine extend hf.1 ?_
      have hne : n.id ≠ tm.id := by simpa using hf.2
      simp only [Event.removedId, ne_eq, Option.some.injEq]
      exact fun heq => hne heq.symm
    · exact extend hn (by simp [Event.removedId])

/-- Witness for C8: two notifications, the timer of the first fires, the second
is still listed. -/
theorem listed_was_added_witness :
    run (init 0) [.add 0 "a" none, .tick 5000, .add 5000 "b" none, .fire ⟨1, 5000, 0⟩] =
      some ⟨[⟨5000, "b", "info"⟩], 5000, [⟨2, 10000, 5000⟩], 3⟩ ∧
    ∃ before after clock message type s0,
      [Event.add 0 "a" none, .tick 5000, .add 5000 "b" none, .fire ⟨1, 5000, 0⟩] =
        before ++ Event.add clock message type :: after ∧
      run (init 0) before = some s0 ∧
      (⟨5000, "b", "info"⟩ : Notification) = ⟨clock, message, type.getD "info"⟩ ∧
      ∀ e ∈ after, e.removedId ≠ some (5000 : Int) :=
  ⟨by decide,
    listed_was_added 0 [.add 0 "a" none, .tick 5000, .add 5000 "b" none, .fire ⟨1, 5000, 0⟩]
      ⟨[⟨5000, "b", "info"⟩], 5000, [⟨2, 10000, 5000⟩], 3⟩ (by decide) ⟨5000, "b", "info"⟩
      (List.mem_singleton.mpr rfl)⟩

/-! ### Adding and removing the same id -/

/-- C9: on a store where no listed notification has the clock value read by
`add` as id, `add(message, type)` followed by `remove` of the new id gives back
the original list; and when the timer that `add` scheduled fires later on that
store, once it is due, it can run (nothing is raised) and leaves the list as it
is. -/
theorem add_then_remove (s : Store) (clock : Int) (message : String) (type : Option String)
    (h : ∀ n ∈ s.items, n.id ≠ clock) (d : Nat) (hd : 5000 ≤ d) :
    ((s.add clock message type).remove clock).items = s.items ∧
    ∃ s', run ((s.add clock message type).remove clock)
        [.tick d, .fire ⟨s.next, s.time + 5000, clock⟩] = some s' ∧
      neverEarly ((s.add clock message type).remove clock)
        [.tick d, .fire ⟨s.next, s.time + 5000, clock⟩] = true ∧
      s'.items = s.items := by
  have hrem : remove clock s.items = s.items := by
    unfold remove
    rw [List.filter_eq_self]
    intro n hn
    simpa using h n hn
  have hitems : ((s.add clock message type).remove clock).items = s.items := by
    simp [Store.add, Store.remove, add, remove, List.filter_append]
    simpa [remove] using hrem
  refine ⟨hitems, ?_⟩
  have hmem : (⟨s.next, s.time + 5000, clock⟩ : Timer) ∈
      ((s.add clock message type).remove clock).timers := by
    simp [Store.add, Store.remove, add]
  have hdue : s.time + 5000 ≤ ((s.add clock message type).remove clock).time + (d : Int) := by
    show s.time + 5000 ≤ s.time + (d : Int)
    omega
  refine ⟨_, run_tick_fire _ d ⟨s.next, s.time + 5000, clock⟩ hmem,
    neverEarly_tick_fire _ d ⟨s.next, s.time + 5000, clock⟩ hmem hdue, ?_⟩
  · show remove clock ((s.add clock message type).remove clock).items = s.items
    rw [hitems, hrem]

/-- Witness for C9: `add("Saved", "success")` on the empty store, then `remove`
of its id: the list is empty, and the timer firing 5000ms later changes nothing. -/
theorem add_then_remove_witness :
    (∀ n ∈ (init 0).items, n.id ≠ 1700000000000) ∧
    (((init 0).add 1700000000000 "Saved" (some "success")).remove 1700000000000).items = [] ∧
    ∃ s', run (((init 0).add 1700000000000 "Saved" (some "success")).remove 1700000000000)
        [.tick 5000, .fire ⟨1, 5000, 1700000000000⟩] = some s' ∧
      neverEarly (((init 0).add 1700000000000 "Saved" (some "success")).remove 1700000000000)
        [.tick 5000, .fire ⟨1, 5000, 1700000000000⟩] = true ∧
      s'.items = [] :=
  ⟨by decide, add_then_remove (init 0) 1700000000000 "Saved" (some "success")
    (by decide) 5000 (by decide)⟩

/-- C10: two `add` calls that read the same clock value leave two notifications
with the same id in the list.  For every list holding two entries with one id,
a single `remove` of that id keeps no notification with the id and shortens the
list by at least two; the firing of the first call's timer is such a `remove`
and takes both notifications off the list. -/
theorem same_clock_ids_collide (s : Store) (clock : Int) (m1 m2 : String)
    (t1 t2 : Option String) :
    ((s.add clock m1 t1).add clock m2 t2).items =
      s.items ++ [⟨clock, m1, t1.getD "info"⟩, ⟨clock, m2, t2.getD "info"⟩] ∧
    (∀ (items : List Notification) (a b : Notification), a.id = b.id →
      [a, b].Sublist items →
      (∀ n ∈ remove a.id items, n.id ≠ a.id) ∧
      (remove a.id items).length + 2 ≤ items.length) ∧
    ∃ s', run ((s.add clock m1 t1).add clock m2 t2)
        [.tick 5000, .fire ⟨s.next, s.time + 5000, clock⟩] = some s' ∧
      neverEarly ((s.add clock m1 t1).add clock m2 t2)
        [.tick 5000, .fire ⟨s.next, s.time + 5000, clock⟩] = true ∧
      s'.items = remove clock ((s.add clock m1 t1).add clock m2 t2).items ∧
      (∀ n ∈ s'.items, n.id ≠ clock) ∧
      s'.items.length + 2 ≤ ((s.add clock m1 t1).add clock m2 t2).items.length := by
  have hgen : ∀ (items : List Notification) (a b : Notification), a.id = b.id →
      [a, b].Sublist items →
      (∀ n ∈ remove a.id items, n.id ≠ a.id) ∧
      (remove a.id items).length + 2 ≤ items.length := by
    intro items a b hab hsub
    refine ⟨?_, ?_⟩
    · intro n hn
      have := (List.mem_filter.mp hn).2
      simpa using this
    · have hcount := List.length_eq_countP_add_countP (fun item : Notification => item.id != a.id) items
      have hsub2 := (hsub.filter (fun item : Notification => ! (item.id != a.id))).length_le
      have hfl : ([a, b].filter (fun item : Notification => ! (item.id != a.id))).length = 2 := by
        simp [List.filter, hab.symm]
      rw [hfl, ← List.countP_eq_length_filter] at hsub2
      have hlen : (remove a.id items).length
          = List.countP (fun item : Notification => item.id != a.id) items := by
        unfold remove
        rw [List.countP_eq_length_filter]
      rw [hlen]
      simp only [Bool.not_eq_true, Bool.decide_eq_false] at hcount
      omega
  have hitems : ((s.add clock m1 t1).add clock m2 t2).items =
      s.items ++ [⟨clock, m1, t1.getD "info"⟩, ⟨clock, m2, t2.getD "info"⟩] := by
    simp [Store.add, add]
  refine ⟨hitems, hgen, ?_⟩
  have hmem : (⟨s.next, s.time + 5000, clock⟩ : Timer) ∈
      ((s.add clock m1 t1).add clock m2 t2).timers := by
    simp [Store.add, add]
  have hdue : s.time + 5000 ≤ ((s.add clock m1 t1).add clock m2 t2).time + ((5000 : Nat) : Int) := by
    show s.time + 5000 ≤ s.time + ((5000 : Nat) : Int)
    omega
  have hsub : [(⟨clock, m1, t1.getD "info"⟩ : Notification), ⟨clock, m2, t2.getD "info"⟩].Sublist
      ((s.add clock m1 t1).add clock m2 t2).items := by
    rw [hitems]
    exact List.sublist_append_right _ _
  have hg := hgen _ ⟨clock, m1, t1.getD "info"⟩ ⟨clock, m2, t2.getD "info"⟩ rfl hsub
  exact ⟨_, run_tick_fire _ 5000 ⟨s.next, s.time + 5000, clock⟩ hmem,
    neverEarly_tick_fire _ 5000 ⟨s.next, s.time + 5000, clock⟩ hmem hdue, rfl, hg.1, hg.2⟩

/-! ### The Kanban wiring -/

/-- C5: a drop of an element carrying `data-contact-id = c` into a container
whose nearest `.kanban-column` carries `data-status = s` makes `onEnd` issue
exactly one request: `POST /pipeline/move` with the values
`{contact_id: c, new_status: s}`, target `#pipeline-stats`, swap `innerHTML`. -/
theorem onEnd_posts_move (evt : DropEvent) (c s : String) (column : Element)
    (hc : evt.item.data "contactId" = some c)
    (hcol : evt.dest.closest "kanban-column" = some column)
    (hs : column.data "status" = some s) :
    onEnd evt = .ok [⟨"POST", "/pipeline/move",
      [("contact_id", some c), ("new_status", some s)], "#pipeline-stats", "innerHTML"⟩] := by
  simp [onEnd, hc, hcol, hs]

/-- Witness for C5: card 42 dropped into the column `won`. -/
theorem onEnd_posts_move_witness :
    dropIntoWon.item.data "contactId" = some "42" ∧
    onEnd dropIntoWon = .ok [⟨"POST", "/pipeline/move",
      [("contact_id", some "42"), ("new_status", some "won")], "#pipeline-stats", "innerHTML"⟩] :=
  ⟨rfl, onEnd_posts_move dropIntoWon "42" "won"
    (.mk ["kanban-column"] [("status", "won")] [.mk ["kanban-cards"] [] [card42]]) rfl rfl rfl⟩

/-- Without the library the `forEach` loop leaves the registrations as they are. -/
theorem bindColumns_none (regs : List Registration) (columns : List Element) :
    bindColumns none regs columns = .ok regs := by
  induction columns with
  | nil => rfl
  | cons column rest ih => simp [bindColumns, bindColumn, ih]

/-- With a constructor that accepts what each column hands it, the loop ends
without an exception. -/
theorem bindColumns_ok (sortable : Option SortableLib) (columns : List Element)
    (h : ∀ lib, sortable = some lib →
      ∀ column ∈ columns, lib.accepts (column.querySelector "kanban-cards") = true)
    (regs : List Registration) :
    ∃ regs', bindColumns sortable regs columns = .ok regs' := by
  induction columns generalizing regs with
  | nil => exact ⟨regs, rfl⟩
  | cons column rest ih =>
    have hrest : ∀ lib, sortable = some lib →
        ∀ c ∈ rest, lib.accepts (c.querySelector "kanban-cards") = true :=
      fun lib hl c hc => h lib hl c (List.mem_cons_of_mem _ hc)
    cases sortable with
    | none => exact ⟨regs, bindColumns_none regs _⟩
    | some lib =>
      have hacc := h lib rfl column (List.mem_cons_self _ _)
      obtain ⟨regs', hr⟩ := ih hrest (regs ++ [{ el := column.querySelector "kanban-cards",
                                                  options := kanbanOptions }])
      exact ⟨regs', by simp [bindColumns, bindColumn, hacc, hr]⟩

/-- C6, as stated, fails: a drop whose destination has no `.kanban-column`
ancestor makes `onEnd` raise a `TypeError` (`closest` returns `null` and line 24
reads `.dataset` of it). -/
theorem onEnd_throws_outside_column :
    dropOutsideColumn.dest.closest "kanban-column" = none ∧
    onEnd dropOutsideColumn =
      .error (.typeError "Cannot read properties of null (reading dataset)") ∧
    ¬ ∃ calls, onEnd dropOutsideColumn = .ok calls := by
  refine ⟨rfl, rfl, ?_⟩
  rintro ⟨calls, h⟩
  have h' : onEnd dropOutsideColumn =
      .error (.typeError "Cannot read properties of null (reading dataset)") := rfl
  rw [h'] at h
  cases h

/-- C6, amended: the routines complete without an exception when the DOM keeps
its side of the contract.  `onEnd` returns whenever the destination has a
`.kanban-column` at or above it (whatever the `dataset` reads give);
`initKanban` and the `DOMContentLoaded` handler return whenever the library is
absent or its constructor accepts what `querySelector('.kanban-cards')` gives
for every column; the two htmx hooks always return, and so do the store's `add`
and `remove`, on every store. -/
theorem no_throw_under_dom_contract (evt : DropEvent)
    (hto : (evt.dest.closest "kanban-column").isSome = true)
    (sortable : Option SortableLib) (doc : Document)
    (hdoc : ∀ lib, sortable = some lib → ∀ column ∈ doc.querySelectorAll "kanban-column",
      lib.accepts (column.querySelector "kanban-cards") = true)
    (detail : String) :
    (∃ call, onEnd evt = .ok [call]) ∧
    (∃ regs, initKanban sortable doc = .ok regs) ∧
    (∃ regs, onDOMContentLoaded sortable doc = .ok regs) ∧
    onConfigRequest detail = .ok () ∧
    onResponseError detail = .ok [("HTMX request failed:", detail)] ∧
    (∀ (s : Store) (clock : Int) (message : String) (type : Option String),
      step s (.add clock message type) = some (s.add clock message type)) ∧
    (∀ (s : Store) (id : Int), step s (.remove id) = some (s.remove id)) := by
  have hinit : ∃ regs, initKanban sortable doc = .ok regs :=
    bindColumns_ok sortable _ hdoc []
  refine ⟨?_, hinit, ?_, rfl, rfl, fun _ _ _ _ => rfl, fun _ _ => rfl⟩
  · cases hcl : evt.dest.closest "kanban-column" with
    | none => rw [hcl] at hto; cases hto
    | some column =>
      exact ⟨⟨"POST", "/pipeline/move",
        [("contact_id", evt.item.data "contactId"), ("new_status", column.data "status")],
        "#pipeline-stats", "innerHTML"⟩, by simp [onEnd, hcl]⟩
  · unfold onDOMContentLoaded
    split
    · exact hinit
    · exact ⟨[], rfl⟩

/-- Witness for the amended C6: the drop into `won`, a library that rejects
`null`, and a board whose columns all have their card list. -/
theorem no_throw_under_dom_contract_witness :
    (dropIntoWon.dest.closest "kanban-column").isSome = true ∧
    (∀ column ∈ fullBoardDoc.querySelectorAll "kanban-column",
      strictSortable.accepts (column.querySelector "kanban-cards") = true) ∧
    (∃ call, onEnd dropIntoWon = .ok [call]) ∧
    (∃ regs, initKanban (some strictSortable) fullBoardDoc = .ok regs) :=
  have h := no_throw_under_dom_contract dropIntoWon rfl (some strictSortable) fullBoardDoc
    (by intro lib hl; cases hl; decide) "timeout"
  ⟨rfl, by decide, h.1, h.2.1⟩

/-- C7: when `Sortable` is undefined, `initKanban` registers no sortable
container and raises nothing, whatever the document holds. -/
theorem initKanban_without_sortable (doc : Document) :
    initKanban none doc = .ok [] :=
  bindColumns_none [] _

end MasterSales
